import Mathlib

/-!
Shallow embedding of the pairs-trading pair-selection engine:
`utils.py` (statistics engine), `NoClusterPairSelection.py`,
`ThemeClusterPairSelection.py`, `OpticsPairSelection.py` (strategies)
and `main.py` (walk-forward orchestrator and embargo map).

Numeric conventions.
* Python floats are modelled by exact rationals/reals; `NpVal` adds the
  IEEE specials (`nan`, `pinf`, `ninf`) where NumPy arithmetic produces
  them (log of a non-positive number, division by zero, mean of an
  empty list).
* External statistical routines (`adfuller`, `coint`, `AutoReg.fit`,
  `pearsonr`, the PCA+OPTICS pipeline) are numerical black boxes; they
  are modelled as oracle parameters, and the embedding captures exactly
  how the source consumes their results, including the try/except
  conversion of failures to NaN (`none` models a raised ValueError or a
  NaN result wherever the source only tests NaN-ness or catches).
* `Except Unit` is the result type of code that can raise an uncaught
  Python exception: `.error ()` is an exception escaping the function.
* A pandas date index is a `List ℤ` of (distinct, ascending) dates; a
  named price series is a `List (ℤ × ℚ)` of (date, value) rows.
-/

open Classical

/-- IEEE-style NumPy scalar: a finite real or one of the specials. -/
inductive NpVal where
  | nan : NpVal
  | pinf : NpVal
  | ninf : NpVal
  | fin : ℝ → NpVal

/-- True exactly on NaN; models `np.isnan` / the NaN test of `dropna`. -/
def NpVal.isNanB : NpVal → Bool
  | .nan => true
  | _ => false

/-- IEEE negation. -/
noncomputable def npNeg : NpVal → NpVal
  | .nan => .nan
  | .pinf => .ninf
  | .ninf => .pinf
  | .fin x => .fin (-x)

/-- IEEE addition (used by `np.mean` through the sum). -/
noncomputable def npAdd : NpVal → NpVal → NpVal
  | .nan, _ => .nan
  | _, .nan => .nan
  | .pinf, .ninf => .nan
  | .ninf, .pinf => .nan
  | .pinf, _ => .pinf
  | _, .pinf => .pinf
  | .ninf, _ => .ninf
  | _, .ninf => .ninf
  | .fin x, .fin y => .fin (x + y)

/-- IEEE division (signed zeros are not modelled; the argument positions
in which the engine divides never produce a negative zero). -/
noncomputable def npDiv : NpVal → NpVal → NpVal
  | .nan, _ => .nan
  | _, .nan => .nan
  | .pinf, .pinf => .nan
  | .pinf, .ninf => .nan
  | .ninf, .pinf => .nan
  | .ninf, .ninf => .nan
  | .pinf, .fin y => if 0 ≤ y then .pinf else .ninf
  | .ninf, .fin y => if 0 ≤ y then .ninf else .pinf
  | .fin _, .pinf => .fin 0
  | .fin _, .ninf => .fin 0
  | .fin x, .fin y =>
    if y = 0 then (if x = 0 then .nan else if 0 < x then .pinf else .ninf)
    else .fin (x / y)

/-- Halving, used for the final `hurst/2` step. -/
noncomputable def npHalf : NpVal → NpVal
  | .fin x => .fin (x / 2)
  | v => v

/-- `np.log` on a float input: NaN for negatives, `-inf` at zero. -/
noncomputable def npLogQ (q : ℚ) : NpVal :=
  if q < 0 then .nan else if q = 0 then .ninf else .fin (Real.log q)

/-- `np.log10` on a float input: NaN for negatives, `-inf` at zero. -/
noncomputable def npLog10Q (q : ℚ) : NpVal :=
  if q < 0 then .nan else if q = 0 then .ninf else .fin (Real.log q / Real.log 10)

/-- The comparison `v <= 0` with IEEE semantics (False on NaN). -/
def npLeZero : NpVal → Prop
  | .fin x => x ≤ 0
  | .ninf => True
  | _ => False

/-- The comparison `v < c` with IEEE semantics (False on NaN). -/
def npLtR (v : NpVal) (c : ℝ) : Prop :=
  match v with
  | .fin x => x < c
  | .ninf => True
  | _ => False

/-- Extract a finite value; NaN and infinities collapse to `none`
(the positions using this only ever see `nan` or a finite value). -/
def npToOpt : NpVal → Option ℝ
  | .fin x => some x
  | _ => none

/-- Scalar float division `x / y` as NumPy computes it inside
`pct_change` (division by zero yields a signed infinity or NaN,
not an exception). -/
noncomputable def npDivQ (x y : ℚ) : NpVal :=
  if y = 0 then (if x = 0 then .nan else if 0 < x then .pinf else .ninf)
  else .fin ((x / y : ℚ) : ℝ)

/-- `np.mean` of a 1-d array: sum divided by length (NaN on empty). -/
noncomputable def npMean (l : List NpVal) : NpVal :=
  npDiv (l.foldr npAdd (.fin 0)) (.fin (l.length : ℝ))

/-- Sum of a list of rationals. -/
def qsum (l : List ℚ) : ℚ := l.foldr (· + ·) 0

/-- Arithmetic mean (only consumed on non-empty lists). -/
def qmean (l : List ℚ) : ℚ := qsum l / l.length

/-- Population variance, `np.var` with the default `ddof=0`. -/
def popVar (l : List ℚ) : ℚ := qmean (l.map (fun x => (x - qmean l) ^ 2))

/-- Sample variance with `ddof=1`, as in `pandas.Series.std` (only
consumed on lists of length at least 2). -/
def sampleVar (l : List ℚ) : ℚ :=
  qsum (l.map (fun x => (x - qmean l) ^ 2)) / ((l.length : ℚ) - 1)

/-- `pandas.Series.std()`: NaN (`none`) below 2 observations, otherwise
the square root of the `ddof=1` variance. -/
noncomputable def pdStd (l : List ℚ) : Option ℝ :=
  if l.length < 2 then none else some (Real.sqrt (sampleVar l))

/-- `Series.nunique()`: the number of distinct values. -/
def nuniq (l : List ℚ) : ℕ := l.dedup.length

/-- Insertion into a sorted list, for `insertionSortBy`. -/
def insertLe {α : Type} (le : α → α → Bool) (a : α) : List α → List α
  | [] => [a]
  | b :: bs => if le a b then a :: b :: bs else b :: insertLe le a bs

/-- Insertion sort, modelling `sorted(...)` / pandas sorting. -/
def insertionSortBy {α : Type} (le : α → α → Bool) : List α → List α
  | [] => []
  | a :: as => insertLe le a (insertionSortBy le as)

/-- The median of a list of floats as `pandas.Series.median` computes it
on the non-NaN entries: sort, take the middle element (odd length) or
the mean of the two middle elements (even length); NaN on empty input. -/
noncomputable def medianR (l : List ℝ) : Option ℝ :=
  let s := insertionSortBy (fun a b => decide (a ≤ b)) l
  if s.length = 0 then none
  else if s.length % 2 = 1 then some (s.getD (s.length / 2) 0)
  else some ((s.getD (s.length / 2 - 1) 0 + s.getD (s.length / 2) 0) / 2)

/-- All unordered 2-combinations in `itertools.combinations` order. -/
def pairsOf {α : Type} : List α → List (α × α)
  | [] => []
  | a :: as => as.map (fun b => (a, b)) ++ pairsOf as

/-- A named price series: (date, adjusted close) rows. -/
abbrev Series := List (ℤ × ℚ)

/-- A formation panel: one named `Series` per instrument,
all sharing the same date index. -/
abbrev Panel := List (String × Series)

/-- `pd.concat([s1, s2], axis=1).dropna()`: the rows of `s1` whose date
also carries a value in `s2`, with both values (date indexes are
assumed duplicate-free and identically ordered where shared, which
holds for columns read from one CSV panel). -/
def alignPair (s1 s2 : Series) : List (ℤ × ℚ × ℚ) :=
  s1.filterMap (fun dv =>
    match s2.lookup dv.1 with
    | some w => some (dv.1, dv.2, w)
    | none => none)

/-- Left column of the aligned frame. -/
def alignedFst (s1 s2 : Series) : List ℚ := (alignPair s1 s2).map (fun a => a.2.1)

/-- Right column of the aligned frame. -/
def alignedSnd (s1 s2 : Series) : List ℚ := (alignPair s1 s2).map (fun a => a.2.2)

/-- The engine's spread `etf1_series - etf2_series` on the aligned index. -/
def alignedSpread (s1 s2 : Series) : List ℚ :=
  List.zipWith (· - ·) (alignedFst s1 s2) (alignedSnd s1 s2)

/-- The strategy-level spread `series1 - series2`: both operands are
columns of one formation DataFrame, hence share the index, so pandas
subtraction is positionwise. -/
def subSeries (s1 s2 : Series) : List ℚ :=
  List.zipWith (fun a b => a.2 - b.2) s1 s2

/-- `Series.pct_change()` before `dropna`: consecutive relative changes
(`(b - a) / a`, float division). The leading NaN that pandas prepends is
dropped by the `dropna()` that always follows, so it is not materialised. -/
noncomputable def pctChange : List ℚ → List NpVal
  | a :: b :: rest => npDivQ (b - a) a :: pctChange (b :: rest)
  | _ => []

/-- `pct_change().dropna()`: NaN entries removed (infinities survive). -/
noncomputable def pctChangeDropna (l : List ℚ) : List NpVal :=
  (pctChange l).filter (fun v => !v.isNanB)

/-- Oracles for the external statistical routines.
* `adf s`: the `adfuller(s, regression="ct", autolag="AIC")` p-value, or
  `none` when the call raises (caught by the source).
* `coint s1 s2`: `(t-statistic, p-value)` of `coint(s1, s2)`, or `none`
  when the call raises (the source then records NaN for both, and NaN-ness
  is the only thing it ever tests).
* `arPhi s`: the lag-1 coefficient `res.params[1]` of `AutoReg(s, lags=1)`.
* `pearson x y`: the `pearsonr` correlation on two equal-length return
  vectors of length at least 2, `none` when it is NaN (constant input). -/
structure StatOracles where
  adf : List ℚ → Option ℚ
  coint : List ℚ → List ℚ → Option (ℚ × ℚ)
  arPhi : List ℚ → ℚ
  pearson : List NpVal → List NpVal → Option ℚ

/-- `is_not_stationary` (utils.py:20): constant series short-circuit to
True; otherwise non-stationary iff the ADF p-value exceeds the
significance level, with a raising ADF call treated as non-stationary. -/
def is_not_stationary (adf : List ℚ → Option ℚ) (sig : ℚ) (s : List ℚ) : Bool :=
  if nuniq s ≤ 1 then true
  else
    match adf s with
    | some p => decide (sig < p)
    | none => true

/-- `egle_granger_test_bidirectional` (utils.py:48): skip on a constant
input, run `coint` in both directions, return the direction with the
lower t-statistic, preferring a non-NaN direction over a NaN one.
Result is `(t-statistic, p-value)`, `none` modelling NaN. -/
def egle_granger_test_bidirectional (coint : List ℚ → List ℚ → Option (ℚ × ℚ))
    (s1 s2 : List ℚ) : Option ℚ × Option ℚ :=
  if nuniq s1 ≤ 1 ∨ nuniq s2 ≤ 1 then (none, none)
  else
    match coint s1 s2, coint s2 s1 with
    | none, none => (none, none)
    | none, some t2 => (some t2.1, some t2.2)
    | some t1, none => (some t1.1, some t1.2)
    | some t1, some t2 =>
      if t2.1 < t1.1 then (some t2.1, some t2.2) else (some t1.1, some t1.2)

/-- The differences `np.subtract(p[lag:], p[:-lag])` for `1 ≤ lag < |p|`. -/
def lagDiffs (p : List ℚ) (lag : ℕ) : List ℚ :=
  List.zipWith (fun b a => b - a) (p.drop lag) p

/-- The per-lag Hurst estimate `(log10(var) / log10(lag)) / 2`
(utils.py:95-100), with NumPy semantics for a zero variance
(`log10(0) = -inf`) and for `lag = 1` (`log10(1) = 0`, division by zero). -/
noncomputable def hurstValue (p : List ℚ) (lag : ℕ) : NpVal :=
  npHalf (npDiv (npLog10Q (popVar (lagDiffs p lag))) (npLog10Q (lag : ℚ)))

/-- `calculate_hurst_exponent` (utils.py:87): lags at least the series
length are skipped; a zero lag reaches
`np.subtract(p[0:], p[:-0])` = `np.subtract(p, p[:0])`, whose operand
shapes `(len p,)` and `(0,)` cannot broadcast, so NumPy raises a
ValueError that nothing catches. The Python dict is modelled as an
association list in insertion order. -/
noncomputable def calculate_hurst_exponent (p : List ℚ) :
    List ℕ → Except Unit (List (ℕ × NpVal))
  | [] => .ok []
  | lag :: rest =>
    if p.length ≤ lag then calculate_hurst_exponent p rest
    else if lag = 0 then .error ()
    else do
      let m ← calculate_hurst_exponent p rest
      .ok ((lag, hurstValue p lag) :: m)

/-- Module-level `discrete_lags` (utils.py:102). -/
def discrete_lags : List ℕ := [20, 100, 250, 500, 1000]

/-- `calculate_half_life` (utils.py:108): drop missing values, require at
least 2 observations, fit an AR(1) (the `arPhi` oracle), reject
`|phi| >= 1`, reject a non-positive decay rate `-log(phi)` (with NumPy
semantics: `log` of a negative `phi` is NaN, and the NaN comparison is
False, so the computation falls through to a NaN half-life, while
`phi = 0` gives `lambda = +inf` and a zero half-life), otherwise return
`log(2) / (-log(phi))`. `none` models a NaN result. -/
noncomputable def calculate_half_life (arPhi : List ℚ → ℚ)
    (spread : List (Option ℚ)) : Option ℝ :=
  let s := spread.filterMap id
  if s.length < 2 then none
  else
    let phi := arPhi s
    if 1 ≤ phi ∨ phi ≤ -1 then none
    else
      let lam := npNeg (npLogQ phi)
      if npLeZero lam then none
      else npToOpt (npDiv (.fin (Real.log 2)) lam)

/-- The statistic bundle built by `calculate_pair_statistics`. -/
structure PairStats where
  pair : String × String
  correlation : Option ℚ
  cointTStat : Option ℚ
  cointPValue : Option ℚ
  hurstMap : List (ℕ × NpVal)
  halfLife : Option ℝ
  spreadStd : Option ℝ

/-- `calculate_pair_statistics` (utils.py:137): align and drop unshared
dates, return None on an empty alignment, require both aligned series to
be non-stationary, then assemble the bundle. `scipy.stats.pearsonr`
validates its inputs (`x and y must have length at least 2`, equal
lengths) and raises an uncaught ValueError otherwise — `.error ()`.
The series names `n1 n2` model the pandas column names. -/
noncomputable def calculate_pair_statistics (o : StatOracles) (sig : ℚ)
    (n1 n2 : String) (s1 s2 : Series) : Except Unit (Option PairStats) :=
  if alignPair s1 s2 = [] then .ok none
  else
    let xs := alignedFst s1 s2
    let ys := alignedSnd s1 s2
    if is_not_stationary o.adf sig xs && is_not_stationary o.adf sig ys then
      let ct := egle_granger_test_bidirectional o.coint xs ys
      let spread := alignedSpread s1 s2
      do
        let hm ← calculate_hurst_exponent spread discrete_lags
        let hl := calculate_half_life o.arPhi (spread.map some)
        let r1 := pctChangeDropna xs
        let r2 := pctChangeDropna ys
        if r1.length < 2 ∨ r1.length ≠ r2.length then .error ()
        else
          .ok (some { pair := (n1, n2), correlation := o.pearson r1 r2,
                      cointTStat := ct.1, cointPValue := ct.2,
                      hurstMap := hm,
                      halfLife := hl,
                      spreadStd := pdStd spread })
    else .ok none

/-- A strategy-level selected/candidate row: the engine bundle plus the
strategy's recomputed Hurst data and the optional group label. -/
structure PairRow extends PairStats where
  avgHurst : NpVal
  segment : Option String := none
  cluster : Option ℤ := none

/-- The lag list every strategy uses to recompute the Hurst map
(`discrete_lags = [20, 50, 100, 200]` local to each strategy module). -/
def strategy_lags : List ℕ := [20, 50, 100, 200]

/-- One candidate-pair evaluation inside any strategy loop: call the
statistics engine; on a bundle, recompute the Hurst map of the
strategy-level spread over `strategy_lags`, overwrite the bundle's
`Hurst_Exponent`, and set `Average_Hurst` to the mean of the recomputed
map's values (`np.mean(list(hurst_results.values()))`; the unrestricted
strategy computes this mean later via `DataFrame.apply`, on the same
dict, with the same value). `isinstance(hurst_results, dict)` is always
true, so the non-dict fallback branch is dead and not modelled. -/
noncomputable def mkRecord (o : StatOracles) (sig : ℚ) (n1 n2 : String)
    (c1 c2 : Series) (seg : Option String) (clu : Option ℤ) :
    Except Unit (Option PairRow) := do
  let st? ← calculate_pair_statistics o sig n1 n2 c1 c2
  match st? with
  | none => .ok none
  | some st => do
    let hm ← calculate_hurst_exponent (subSeries c1 c2) strategy_lags
    .ok (some { toPairStats := { st with hurstMap := hm },
                avgHurst := npMean (hm.map (fun e => e.2)),
                segment := seg, cluster := clu })

/-- A strategy's inner loop over a list of candidate (name, column)
pairs, accumulating the evaluated rows in order. -/
noncomputable def buildRecords (o : StatOracles) (sig : ℚ) (seg : Option String)
    (clu : Option ℤ) :
    List ((String × Series) × (String × Series)) → Except Unit (List PairRow)
  | [] => .ok []
  | (a, b) :: rest => do
    let r? ← mkRecord o sig a.1 b.1 a.2 b.2 seg clu
    let rs ← buildRecords o sig seg clu rest
    .ok (match r? with | some r => r :: rs | none => rs)

/-- Panel columns sorted by instrument name,
`sorted(list(set(etf_names)))` (names are assumed distinct). -/
def sortedCols (panel : Panel) : Panel :=
  insertionSortBy (fun a b => decide (a.1 ≤ b.1)) panel

/-- The candidate rows of `select_pairs_no_clustering`
(NoClusterPairSelection.py:24-46) after the `dropna(subset=['Correlation'])`
step; when no row was built the frame has no Correlation column and the
source returns an empty frame, which coincides with filtering nothing. -/
noncomputable def noClusterResults (o : StatOracles) (panel : Panel) :
    Except Unit (List PairRow) := do
  let rows ← buildRecords o (1/20) none none (pairsOf (sortedCols panel))
  .ok (rows.filter (fun r => r.correlation.isSome))

/-- Pandas comparison `column <= threshold` where both sides may be NaN:
any NaN comparison is False. -/
def optLeOptR (x t : Option ℝ) : Prop :=
  match x, t with
  | some v, some u => v ≤ u
  | _, _ => False

/-- Pandas comparison `column >= c` (False on NaN). -/
def optGeQ (x : Option ℚ) (c : ℚ) : Prop :=
  match x with | some v => c ≤ v | none => False

/-- Pandas comparison `column <= c` (False on NaN). -/
def optLeQ (x : Option ℚ) (c : ℚ) : Prop :=
  match x with | some v => v ≤ c | none => False

/-- Pandas comparison `column >= c` on a float column (False on NaN). -/
def optGeR (x : Option ℝ) (c : ℝ) : Prop :=
  match x with | some v => c ≤ v | none => False

/-- Pandas comparison `column <= c` on a float column (False on NaN). -/
def optLeR (x : Option ℝ) (c : ℝ) : Prop :=
  match x with | some v => v ≤ c | none => False

/-- The five-fold selection criterion shared by the three strategies:
Correlation >= 0.8, Cointegration p-value <= 0.05, Spread STD <= the
group's median Spread STD, Average Hurst < 0.5, and
5 <= Half-Life <= trading-period days. -/
def passesSel (tdays : ℚ) (thr : Option ℝ) (r : PairRow) : Prop :=
  optGeQ r.correlation (8/10) ∧ optLeQ r.cointPValue (1/20) ∧
  optLeOptR r.spreadStd thr ∧ npLtR r.avgHurst (1/2) ∧
  optGeR r.halfLife 5 ∧ optLeR r.halfLife (tdays : ℝ)

/-- The group-level Spread-STD threshold:
`group['Spread_STD'].median() if not group.empty else None`
(pandas `median` skips NaN entries). -/
noncomputable def groupThr (rows : List PairRow) : Option ℝ :=
  if rows.isEmpty then none
  else medianR (rows.filterMap (fun r => r.spreadStd))

/-- One `SelectionFilter` pass over a group of rows. -/
noncomputable def selectGroup (tdays : ℚ) (rows : List PairRow) : List PairRow :=
  rows.filter (fun r => decide (passesSel tdays (groupThr rows) r))

/-- `select_pairs_no_clustering` (NoClusterPairSelection.py): the whole
window is one group. The metadata/column-reorder steps only relabel
rows and are not modelled. -/
noncomputable def select_pairs_no_clustering (o : StatOracles) (panel : Panel)
    (tdays : ℚ) : Except Unit (List PairRow) := do
  let rows ← noClusterResults o panel
  .ok (selectGroup tdays rows)

/-- Per-group selection used by the theme and OPTICS strategies: for
each group label in order, filter the rows of that label and run the
selection pass on them (an empty group is skipped, which coincides with
selecting nothing from it). -/
noncomputable def selectByKey {κ : Type} [DecidableEq κ] (tdays : ℚ)
    (key : PairRow → Option κ) (cats : List κ) (rows : List PairRow) :
    List PairRow :=
  cats.flatMap (fun c => selectGroup tdays (rows.filter (fun r => decide (key r = some c))))

/-- The distinct segment labels of the thematic mapping,
`etf_info['Segment'].unique()` (order of first appearance is irrelevant
to the claims; `dedup` is used). -/
def themeCategories (etfInfo : List (String × String)) : List String :=
  (etfInfo.map (fun e => e.2)).dedup

/-- The candidate (name, column) pairs of one thematic segment: ticker
2-combinations within the segment, silently skipping pairs with a
ticker absent from the panel. -/
def themePairsIn (etfInfo : List (String × String)) (panel : Panel)
    (c : String) : List ((String × Series) × (String × Series)) :=
  (pairsOf ((etfInfo.filter (fun e => decide (e.2 = c))).map (fun e => e.1))).filterMap
    (fun p =>
      match panel.lookup p.1, panel.lookup p.2 with
      | some c1, some c2 => some ((p.1, c1), (p.2, c2))
      | _, _ => none)

/-- The per-category accumulation loop of `select_pairs_theme_clustering`
(ThemeClusterPairSelection.py:109-130). -/
noncomputable def themeResultsCats (o : StatOracles)
    (etfInfo : List (String × String)) (panel : Panel) :
    List String → Except Unit (List PairRow)
  | [] => .ok []
  | c :: cs => do
    let rs ← buildRecords o (1/20) (some c) none (themePairsIn etfInfo panel c)
    let rest ← themeResultsCats o etfInfo panel cs
    .ok (rs ++ rest)

/-- The theme strategy's rows after `dropna(subset=['Correlation'])`. -/
noncomputable def themeResults (o : StatOracles)
    (etfInfo : List (String × String)) (panel : Panel) :
    Except Unit (List PairRow) := do
  let rows ← themeResultsCats o etfInfo panel (themeCategories etfInfo)
  .ok (rows.filter (fun r => r.correlation.isSome))

/-- `select_pairs_theme_clustering`: group-wise selection per segment. -/
noncomputable def select_pairs_theme_clustering (o : StatOracles)
    (etfInfo : List (String × String)) (panel : Panel) (tdays : ℚ) :
    Except Unit (List PairRow) := do
  let rows ← themeResults o etfInfo panel
  .ok (selectByKey tdays (fun r => r.segment) (themeCategories etfInfo) rows)

/-- `sorted(set(labels) - {-1})`: the non-noise OPTICS cluster labels. -/
def opticsClusters (labels : List ℤ) : List ℤ :=
  insertionSortBy (fun a b => decide (a ≤ b)) ((labels.filter (fun l => decide (l ≠ -1))).dedup)

/-- The per-cluster accumulation loop of `select_pairs_optics_clustering`
(OpticsPairSelection.py:53-78); clusters with fewer than 2 members are
skipped. -/
noncomputable def opticsResultsClusters (o : StatOracles)
    (labeled : List ((String × Series) × ℤ)) :
    List ℤ → Except Unit (List PairRow)
  | [] => .ok []
  | c :: cs => do
    let members := (labeled.filter (fun e => decide (e.2 = c))).map (fun e => e.1)
    let rs ← if members.length < 2 then pure []
             else buildRecords o (1/20) none (some c) (pairsOf members)
    let rest ← opticsResultsClusters o labeled cs
    .ok (rs ++ rest)

/-- The OPTICS strategy's rows after `dropna(subset=['Correlation'])`.
`labels` is the per-instrument cluster assignment (aligned with the
sorted instrument names) produced by the PCA + OPTICS pipeline, which is
an external numerical routine and therefore an oracle input. -/
noncomputable def opticsResults (o : StatOracles) (labels : List ℤ)
    (panel : Panel) : Except Unit (List PairRow) := do
  let rows ← opticsResultsClusters o ((sortedCols panel).zip labels) (opticsClusters labels)
  .ok (rows.filter (fun r => r.correlation.isSome))

/-- `select_pairs_optics_clustering`: `labels?` is `none` when the
standardized-returns frame is empty or PCA raises (both return an empty
frame); otherwise the per-cluster group-wise selection runs. The
no-cluster and no-row early returns coincide with selecting nothing. -/
noncomputable def select_pairs_optics_clustering (o : StatOracles)
    (labels? : Option (List ℤ)) (panel : Panel) (tdays : ℚ) :
    Except Unit (List PairRow) :=
  match labels? with
  | none => .ok []
  | some labels =>
    if (opticsClusters labels).isEmpty then .ok []
    else do
      let rows ← opticsResults o labels panel
      .ok (selectByKey tdays (fun r => r.cluster) (opticsClusters labels) rows)

/-- Python `int(...)` on a float: truncation toward zero. -/
def pyInt (q : ℚ) : ℤ := if 0 ≤ q then ⌊q⌋ else ⌈q⌉

/-- `step = int(times.shape[0] * pctEmbargo)` (main.py:15). The step is
non-negative in every use (`pctEmbargo = 0.01`); `toNat` records that. -/
def embargoStep (times : List ℤ) (pct : ℚ) : ℕ :=
  (pyInt ((times.length : ℚ) * pct)).toNat

/-- `getEmbargoTimes` (main.py:13): with `step = 0` every date maps to
itself; otherwise `pd.Series(times[step:], index=times[:-step])` maps the
i-th date to the (i+step)-th one, and the concatenated
`pd.Series(times[-1], index=times[-step:])` maps each of the last `step`
dates to the last date. The `getLastD 0` default is never read: the
non-zero-step branch forces a non-empty index. -/
def getEmbargoTimes (times : List ℤ) (pct : ℚ) : List (ℤ × ℤ) :=
  let step := embargoStep times pct
  if step = 0 then times.map (fun t => (t, t))
  else
    (times.take (times.length - step)).zip (times.drop step)
      ++ (times.drop (times.length - step)).map (fun t => (t, times.getLastD 0))

/-- The four advancing boundaries of one walk-forward window. -/
structure WFState where
  fs : ℤ
  fe : ℤ
  ts : ℤ
  te : ℤ
deriving DecidableEq

/-- `formation/trading start/end += step_size` (main.py:162-165). -/
def wfAdvance (step : ℤ) (s : WFState) : WFState :=
  ⟨s.fs + step, s.fe + step, s.ts + step, s.te + step⟩

/-- What one loop iteration of `main` records about its window: the
boundaries, the per-iteration recomputed embargo map over the full
index, and `actual_trading_period_days`. -/
structure WindowRecord where
  win : WFState
  embargo : List (ℤ × ℤ)
  tdays : ℤ

/-- The `while trading_end_date <= data_end_date` loop of `main`
(main.py:123-165) with the source's fixed `step_size = 182` days,
recording every processed window in order. -/
def wfLoop (times : List ℤ) (pct : ℚ) (de : ℤ) (s : WFState) :
    List WindowRecord :=
  if _h : s.te ≤ de then
    ⟨s, getEmbargoTimes times pct, s.te - s.ts⟩ ::
      wfLoop times pct de (wfAdvance 182 s)
  else []
termination_by (de + 1 - s.te).toNat
decreasing_by simp [wfAdvance]; omega

/-- `main` (main.py:96-168): initial boundaries from the panel's first
date with `formation_period = 730` and `trading_period = 182` days,
`pct_embargo = 0.01`; the loop of the processed windows. An empty index
is degenerate (`min`/`max` undefined) and yields no windows. -/
def mainWindows (times : List ℤ) : List WindowRecord :=
  match times.min?, times.max? with
  | some ds, some de => wfLoop times (1/100) de ⟨ds, ds + 730, ds + 730, ds + 912⟩
  | _, _ => []

/-- C6: a series with at most one distinct value is reported
non-stationary without consulting the ADF routine (the result is True
and independent of the oracle); any other series is non-stationary
exactly when the ADF p-value exceeds the 0.05 significance level or the
ADF call raises. -/
theorem stationarity_pretest :
    (∀ (f g : List ℚ → Option ℚ) (sig : ℚ) (s : List ℚ), nuniq s ≤ 1 →
        is_not_stationary f sig s = true ∧
        is_not_stationary f sig s = is_not_stationary g sig s) ∧
    (∀ (f : List ℚ → Option ℚ) (s : List ℚ), 1 < nuniq s →
        (is_not_stationary f (1/20) s = true ↔
          f s = none ∨ ∃ p, f s = some p ∧ 1/20 < p)) := by
  constructor
  · intro f g sig s h
    simp [is_not_stationary, h]
  · intro f s h
    rw [is_not_stationary, if_neg (by omega)]
    cases hf : f s with
    | none => simp
    | some p => simp [decide_eq_true_eq]

theorem stationarity_pretest_witness :
    (is_not_stationary (fun _ => some 0) (1/20) [5, 5] = true ∧
      is_not_stationary (fun _ => some 0) (1/20) [5, 5] =
        is_not_stationary (fun _ => none) (1/20) [5, 5]) ∧
    (is_not_stationary (fun _ => some 1) (1/20) [1, 2] = true ↔
      (fun _ : List ℚ => some (1:ℚ)) [1, 2] = none ∨
        ∃ p, (fun _ : List ℚ => some (1:ℚ)) [1, 2] = some p ∧ 1/20 < p) :=
  ⟨stationarity_pretest.1 _ _ _ _ (by decide),
   stationarity_pretest.2 (fun _ => some 1) [1, 2] (by decide)⟩

/-- C3: the bidirectional Engle-Granger test returns the direction with
the strictly lower t-statistic (ties favour the first direction), a
non-NaN direction is preferred over a NaN one, and a constant input
series short-circuits to NaN/NaN without running any test (the result
is independent of the cointegration oracle). -/
theorem eg_bidirectional_tiebreak :
    ∀ (coint : List ℚ → List ℚ → Option (ℚ × ℚ)) (s1 s2 : List ℚ),
      (nuniq s1 ≤ 1 ∨ nuniq s2 ≤ 1 →
        egle_granger_test_bidirectional coint s1 s2 = (none, none) ∧
        ∀ c2, egle_granger_test_bidirectional coint s1 s2 =
          egle_granger_test_bidirectional c2 s1 s2) ∧
      (1 < nuniq s1 → 1 < nuniq s2 →
        (∀ t1 p1 t2 p2, coint s1 s2 = some (t1, p1) → coint s2 s1 = some (t2, p2) →
          (t1 ≤ t2 →
            egle_granger_test_bidirectional coint s1 s2 = (some t1, some p1)) ∧
          (t2 < t1 →
            egle_granger_test_bidirectional coint s1 s2 = (some t2, some p2))) ∧
        (∀ t2 p2, coint s1 s2 = none → coint s2 s1 = some (t2, p2) →
          egle_granger_test_bidirectional coint s1 s2 = (some t2, some p2)) ∧
        (∀ t1 p1, coint s1 s2 = some (t1, p1) → coint s2 s1 = none →
          egle_granger_test_bidirectional coint s1 s2 = (some t1, some p1))) := by
  intro coint s1 s2
  constructor
  · intro h
    constructor
    · simp [egle_granger_test_bidirectional, h]
    · intro c2
      simp [egle_granger_test_bidirectional, h]
  · intro h1 h2
    have hg : ¬ (nuniq s1 ≤ 1 ∨ nuniq s2 ≤ 1) := by omega
    refine ⟨?_, ?_, ?_⟩
    · intro t1 p1 t2 p2 hc1 hc2
      constructor
      · intro hle
        have : ¬ (t2 < t1) := by exact not_lt.mpr hle
        simp [egle_granger_test_bidirectional, hg, hc1, hc2, this]
      · intro hlt
        simp [egle_granger_test_bidirectional, hg, hc1, hc2, hlt]
    · intro t2 p2 hc1 hc2
      simp [egle_granger_test_bidirectional, hg, hc1, hc2]
    · intro t1 p1 hc1 hc2
      simp [egle_granger_test_bidirectional, hg, hc1, hc2]

theorem eg_bidirectional_tiebreak_witness :
    (egle_granger_test_bidirectional (fun _ _ => some (-3, 1/100)) [1, 2] [3, 5] =
      (some (-3), some (1/100))) ∧
    (egle_granger_test_bidirectional (fun _ _ => none) [7, 7] [3, 5] = (none, none)) :=
  ⟨((eg_bidirectional_tiebreak (fun _ _ => some (-3, 1/100)) [1, 2] [3, 5]).2
      (by decide) (by decide)).1 (-3) (1/100) (-3) (1/100) rfl rfl |>.1 (by norm_num),
   ((eg_bidirectional_tiebreak (fun _ _ => none) [7, 7] [3, 5]).1 (by decide)).1⟩

/-- C4: the half-life is undefined (NaN, modelled `none`) when fewer
than 2 non-missing observations remain, when the fitted coefficient phi
satisfies `phi >= 1` or `phi <= -1`, or when the derived decay rate
`-log(phi)` compares `<= 0`; for `0 < phi < 1` it equals
`log(2) / (-log(phi))`; the arithmetic never raises. -/
theorem half_life_guards :
    ∀ (arPhi : List ℚ → ℚ) (spread : List (Option ℚ)),
      ((spread.filterMap id).length < 2 → calculate_half_life arPhi spread = none) ∧
      (1 ≤ arPhi (spread.filterMap id) → calculate_half_life arPhi spread = none) ∧
      (arPhi (spread.filterMap id) ≤ -1 → calculate_half_life arPhi spread = none) ∧
      (npLeZero (npNeg (npLogQ (arPhi (spread.filterMap id)))) →
        calculate_half_life arPhi spread = none) ∧
      (2 ≤ (spread.filterMap id).length → 0 < arPhi (spread.filterMap id) →
        arPhi (spread.filterMap id) < 1 →
        calculate_half_life arPhi spread =
          some (Real.log 2 / -Real.log ((arPhi (spread.filterMap id) : ℚ) : ℝ))) := by
  intro arPhi spread
  refine ⟨?_, ?_, ?_, ?_, ?_⟩
  · intro h
    simp [calculate_half_life, h]
  · intro h
    by_cases hl : (spread.filterMap id).length < 2
    · simp [calculate_half_life, hl]
    · simp [calculate_half_life, hl, h]
  · intro h
    by_cases hl : (spread.filterMap id).length < 2
    · simp [calculate_half_life, hl]
    · simp [calculate_half_life, hl, h]
  · intro h
    by_cases hl : (spread.filterMap id).length < 2
    · simp [calculate_half_life, hl]
    · by_cases hg : 1 ≤ arPhi (spread.filterMap id) ∨ arPhi (spread.filterMap id) ≤ -1
      · simp [calculate_half_life, hl, hg]
      · simp [calculate_half_life, hl, hg, h]
  · intro hl h0 h1
    set phi := arPhi (spread.filterMap id) with hphi
    have hg : ¬ (1 ≤ phi ∨ phi ≤ -1) := by push_neg; constructor <;> linarith
    have hnlt : ¬ (phi < 0) := by linarith
    have hne : ¬ (phi = 0) := by intro h; rw [h] at h0; exact lt_irrefl 0 h0
    have hlog : Real.log ((phi : ℚ) : ℝ) < 0 := by
      apply Real.log_neg
      · exact_mod_cast h0
      · exact_mod_cast h1
    have e1 : npLogQ phi = .fin (Real.log ((phi : ℚ) : ℝ)) := by
      rw [npLogQ, if_neg hnlt, if_neg hne]
    have e2 : npNeg (npLogQ phi) = .fin (-Real.log ((phi : ℚ) : ℝ)) := by
      rw [e1]; rfl
    have e3 : ¬ npLeZero (npNeg (npLogQ phi)) := by
      rw [e2]
      simp only [npLeZero, not_le]
      linarith
    have hb : -Real.log ((phi : ℚ) : ℝ) ≠ 0 := by
      apply ne_of_gt; linarith
    have e4 : npDiv (.fin (Real.log 2)) (.fin (-Real.log ((phi : ℚ) : ℝ))) =
        .fin (Real.log 2 / -Real.log ((phi : ℚ) : ℝ)) := by
      simp [npDiv, hb]
    simp only [calculate_half_life, ← hphi]
    rw [if_neg (show ¬ (spread.filterMap id).length < 2 by omega)]
    rw [if_neg hg, if_neg e3, e2, e4]
    rfl

theorem half_life_guards_witness :
    calculate_half_life (fun _ => 9/10) [some 0, some 1] =
      some (Real.log 2 / -Real.log (((9:ℚ)/10 : ℚ) : ℝ)) ∧
    calculate_half_life (fun _ => 3/2) [some 0, some 1] = none ∧
    calculate_half_life (fun _ => 1/2) [some 0] = none :=
  ⟨(half_life_guards (fun _ => 9/10) [some 0, some 1]).2.2.2.2
      (by decide) (by norm_num) (by norm_num),
   (half_life_guards (fun _ => 3/2) [some 0, some 1]).2.1 (by norm_num),
   (half_life_guards (fun _ => 1/2) [some 0]).1 (by decide)⟩

/-- C2: the statistics engine returns None on an empty date alignment,
returns None when either aligned series fails the non-stationarity
pre-test, and constructs a bundle only when the alignment is non-empty
and both aligned series are non-stationary. -/
theorem pair_statistics_candidacy_gate :
    ∀ (o : StatOracles) (sig : ℚ) (n1 n2 : String) (s1 s2 : Series),
      (alignPair s1 s2 = [] →
        calculate_pair_statistics o sig n1 n2 s1 s2 = .ok none) ∧
      (¬ (is_not_stationary o.adf sig (alignedFst s1 s2) = true ∧
            is_not_stationary o.adf sig (alignedSnd s1 s2) = true) →
        calculate_pair_statistics o sig n1 n2 s1 s2 = .ok none) ∧
      (∀ b, calculate_pair_statistics o sig n1 n2 s1 s2 = .ok (some b) →
        alignPair s1 s2 ≠ [] ∧
        is_not_stationary o.adf sig (alignedFst s1 s2) = true ∧
        is_not_stationary o.adf sig (alignedSnd s1 s2) = true) := by
  intro o sig n1 n2 s1 s2
  refine ⟨?_, ?_, ?_⟩
  · intro h
    simp [calculate_pair_statistics, h]
  · intro h
    by_cases ha : alignPair s1 s2 = []
    · simp [calculate_pair_statistics, ha]
    · have hb : ¬ (is_not_stationary o.adf sig (alignedFst s1 s2) &&
          is_not_stationary o.adf sig (alignedSnd s1 s2)) = true := by
        rw [Bool.and_eq_true]
        exact h
      simp only [calculate_pair_statistics, if_neg ha]
      rw [if_neg hb]
  · intro b hb
    by_cases ha : alignPair s1 s2 = []
    · rw [calculate_pair_statistics] at hb
      rw [if_pos ha] at hb
      simp at hb
    · refine ⟨ha, ?_⟩
      by_cases hs : (is_not_stationary o.adf sig (alignedFst s1 s2) &&
          is_not_stationary o.adf sig (alignedSnd s1 s2)) = true
      · exact Bool.and_eq_true .. |>.mp hs
      · rw [calculate_pair_statistics] at hb
        rw [if_neg ha] at hb
        rw [if_neg hs] at hb
        simp at hb

theorem pair_statistics_candidacy_gate_witness :
    (calculate_pair_statistics ⟨fun _ => some 1, fun _ _ => none, fun _ => 0,
        fun _ _ => none⟩ (1/20) "A" "B" [((0:ℤ), (1:ℚ))] [((1:ℤ), (2:ℚ))] = .ok none) ∧
    (calculate_pair_statistics ⟨fun _ => some 0, fun _ _ => none, fun _ => 0,
        fun _ _ => none⟩ 1 "A" "B" [((0:ℤ), (1:ℚ)), (1, 2)]
        [((0:ℤ), (5:ℚ)), (1, 6)] = .ok none) :=
  ⟨(pair_statistics_candidacy_gate _ _ "A" "B" _ _).1 (by decide),
   (pair_statistics_candidacy_gate _ _ "A" "B" _ _).2.1 (by decide)⟩

/-- C9 (code bug): a pair whose aligned series have exactly one shared
date is not skipped: the engine reaches `pearsonr` with empty return
vectors and raises an uncaught ValueError, whatever the oracles do, so
the run aborts instead of emitting no record. -/
theorem pair_statistics_small_sample_raises :
    ∀ (o : StatOracles) (sig : ℚ),
      calculate_pair_statistics o sig "A" "B" [((0:ℤ), (1:ℚ))] [((0:ℤ), (2:ℚ))] =
        .error () := by
  intro o sig
  rfl

theorem hurst_ok_of_pos (p : List ℚ) :
    ∀ (lags : List ℕ), (∀ L ∈ lags, 1 ≤ L) →
      calculate_hurst_exponent p lags =
        .ok ((lags.filter (fun L => decide (L < p.length))).map
          (fun L => (L, hurstValue p L))) := by
  intro lags
  induction lags with
  | nil => intro _; rfl
  | cons lag rest ih =>
    intro h
    have h1 : 1 ≤ lag := h lag (List.mem_cons_self _ _)
    have hrest := ih (fun L hL => h L (List.mem_cons_of_mem _ hL))
    by_cases hlen : p.length ≤ lag
    · have hnlt : ¬ (lag < p.length) := by omega
      simp [calculate_hurst_exponent, hlen, hrest, hnlt]
    · have hlt : lag < p.length := by omega
      have hne : ¬ (lag = 0) := by omega
      simp [calculate_hurst_exponent, hlen, hne, hrest, hlt, Bind.bind, Except.bind]

theorem hurst_keys (p : List ℚ) (lags : List ℕ) (h : ∀ L ∈ lags, 1 ≤ L)
    (m : List (ℕ × NpVal)) (hm : calculate_hurst_exponent p lags = .ok m) :
    ∀ L, (∃ v, (L, v) ∈ m) ↔ (L ∈ lags ∧ L < p.length) := by
  rw [hurst_ok_of_pos p lags h] at hm
  injection hm with hm'
  subst hm'
  intro L
  constructor
  · rintro ⟨v, hv⟩
    obtain ⟨a, ha, hav⟩ := List.mem_map.mp hv
    obtain ⟨ha1, ha2⟩ := List.mem_filter.mp ha
    have : a = L := congrArg Prod.fst hav
    subst this
    exact ⟨ha1, of_decide_eq_true ha2⟩
  · rintro ⟨hL, hlt⟩
    exact ⟨hurstValue p L,
      List.mem_map.mpr ⟨L, List.mem_filter.mpr ⟨hL, decide_eq_true hlt⟩, rfl⟩⟩

/-- C5 (amended): for positive lags the Hurst computation never raises,
its keys are exactly the lags below the series length (larger lags are
omitted silently), and the value at lag L is
`(log10(var(p[L:] - p[:-L])) / log10(L)) / 2`; the un-amended claim
fails at lag 0, where the computation raises a broadcast ValueError
(see the counterexample). -/
theorem hurst_exponent_amended :
    ∀ (p : List ℚ) (lags : List ℕ), (∀ L ∈ lags, 1 ≤ L) →
      calculate_hurst_exponent p lags =
        .ok ((lags.filter (fun L => decide (L < p.length))).map
          (fun L => (L, hurstValue p L))) ∧
      ∀ (m : List (ℕ × NpVal)), calculate_hurst_exponent p lags = .ok m →
        ∀ L, (∃ v, (L, v) ∈ m) ↔ (L ∈ lags ∧ L < p.length) := by
  intro p lags h
  exact ⟨hurst_ok_of_pos p lags h, fun m hm => hurst_keys p lags h m hm⟩

/-- C5 counterexample: a zero lag, although smaller than the series
length, makes `calculate_hurst_exponent` raise (NumPy cannot broadcast
`p[0:]` against the empty `p[:-0]`), refuting the claim for arbitrary
lag lists. -/
theorem hurst_exponent_zero_lag_raises :
    calculate_hurst_exponent [1, 2] [0] = .error () := by
  rfl

theorem hurst_exponent_amended_witness :
    calculate_hurst_exponent [0, 1, 2] [1, 2, 5] =
      .ok ((([1, 2, 5] : List ℕ).filter (fun L => decide (L < ([0, 1, 2] : List ℚ).length))).map
        (fun L => (L, hurstValue [0, 1, 2] L))) :=
  (hurst_exponent_amended [0, 1, 2] [1, 2, 5] (by decide)).1

theorem wfLoop_unfold (times : List ℤ) (pct : ℚ) (de : ℤ) (s : WFState) :
    wfLoop times pct de s =
      if s.te ≤ de then
        ⟨s, getEmbargoTimes times pct, s.te - s.ts⟩ ::
          wfLoop times pct de (wfAdvance 182 s)
      else [] := by
  rw [wfLoop]
  simp only [dite_eq_ite]

theorem mem_wfLoop (times : List ℤ) (pct : ℚ) (de : ℤ) :
    ∀ (L : List WindowRecord) (s : WFState), wfLoop times pct de s = L →
      ∀ w ∈ L, w.win.te ≤ de ∧ w.embargo = getEmbargoTimes times pct ∧
        w.tdays = w.win.te - w.win.ts := by
  intro L
  induction L with
  | nil => intro s _ w hw; exact absurd hw (List.not_mem_nil w)
  | cons a L ih =>
    intro s hs w hw
    rw [wfLoop_unfold] at hs
    by_cases h : s.te ≤ de
    · rw [if_pos h] at hs
      injection hs with h1 h2
      rcases List.mem_cons.mp hw with rfl | hw'
      · rw [← h1]
        exact ⟨h, rfl, rfl⟩
      · exact ih (wfAdvance 182 s) h2 w hw'
    · rw [if_neg h] at hs
      exact absurd hs.symm (List.cons_ne_nil a L)

theorem wfLoop_get_succ (times : List ℤ) (pct : ℚ) (de : ℤ) :
    ∀ (L : List WindowRecord) (s : WFState), wfLoop times pct de s = L →
      ∀ (i : ℕ) (w w' : WindowRecord), L[i]? = some w → L[i+1]? = some w' →
        w'.win = wfAdvance 182 w.win := by
  intro L
  induction L with
  | nil => intro s _ i w w' hw _; simp at hw
  | cons a L ih =>
    intro s hs i w w' hw hw'
    rw [wfLoop_unfold] at hs
    by_cases h : s.te ≤ de
    · rw [if_pos h] at hs
      injection hs with h1 h2
      cases i with
      | zero =>
        simp only [List.getElem?_cons_zero, Option.some.injEq] at hw
        simp only [List.getElem?_cons_succ] at hw'
        have hL0 : L[0]? = some w' := hw'
        cases hL : L with
        | nil => rw [hL] at hL0; simp at hL0
        | cons b L2 =>
          rw [hL] at hL0
          simp only [List.getElem?_cons_zero, Option.some.injEq] at hL0
          rw [hL] at h2
          rw [wfLoop_unfold] at h2
          by_cases h3 : (wfAdvance 182 s).te ≤ de
          · rw [if_pos h3] at h2
            injection h2 with h4 _
            rw [← hL0, ← h4, ← hw, ← h1]
          · rw [if_neg h3] at h2
            exact absurd h2.symm (List.cons_ne_nil b L2)
      | succ n =>
        simp only [List.getElem?_cons_succ] at hw hw'
        exact ih (wfAdvance 182 s) h2 n w w' hw hw'
    · rw [if_neg h] at hs
      exact absurd hs.symm (List.cons_ne_nil a L)

/-- C7: each loop iteration advances all four boundaries by the fixed
182-day step, no processed window has a trading end past the panel's
last date (the loop stops as soon as it would), and over a panel
spanning exactly 1000 days with formation 730 / trading 182 / step 182
exactly `(1000 - 730 - 182) / 182 + 1 = 1` window is processed. -/
theorem walk_forward_windows :
    (∀ (step : ℤ) (s : WFState), wfAdvance step s =
      ⟨s.fs + step, s.fe + step, s.ts + step, s.te + step⟩) ∧
    (∀ (times : List ℤ) (pct : ℚ) (de : ℤ) (s : WFState),
      ∀ w ∈ wfLoop times pct de s, w.win.te ≤ de) ∧
    (∀ (times : List ℤ) (pct : ℚ) (de : ℤ) (s : WFState) (i : ℕ)
        (w w' : WindowRecord),
      (wfLoop times pct de s)[i]? = some w →
      (wfLoop times pct de s)[i+1]? = some w' →
      w'.win = wfAdvance 182 w.win) ∧
    (∀ (times : List ℤ) (ds : ℤ), times.min? = some ds →
      times.max? = some (ds + 1000) →
      (mainWindows times).length = (1000 - 730 - 182) / 182 + 1) := by
  refine ⟨fun _ _ => rfl, ?_, ?_, ?_⟩
  · intro times pct de s w hw
    exact (mem_wfLoop times pct de _ s rfl w hw).1
  · intro times pct de s i w w' hw hw'
    exact wfLoop_get_succ times pct de _ s rfl i w w' hw hw'
  · intro times ds hmin hmax
    simp only [mainWindows, hmin, hmax]
    rw [wfLoop_unfold, if_pos (show (WFState.mk ds (ds + 730) (ds + 730) (ds + 912)).te ≤ ds + 1000 by
      show ds + 912 ≤ ds + 1000; omega)]
    rw [wfLoop_unfold,
      if_neg (show ¬ (wfAdvance 182 (WFState.mk ds (ds + 730) (ds + 730) (ds + 912))).te ≤ ds + 1000 by
        show ¬ ds + 912 + 182 ≤ ds + 1000; omega)]
    rfl

theorem walk_forward_windows_witness :
    (mainWindows [0, 1000]).length = (1000 - 730 - 182) / 182 + 1 ∧
    ∀ w ∈ wfLoop [0, 1000] (1/100) 1000 ⟨0, 730, 730, 912⟩, w.win.te ≤ 1000 :=
  ⟨walk_forward_windows.2.2.2 [0, 1000] 0 (by decide) (by decide),
   fun w hw => walk_forward_windows.2.1 [0, 1000] (1/100) 1000 ⟨0, 730, 730, 912⟩ w hw⟩

theorem getElem?_zipPair {α β : Type} :
    ∀ (l : List α) (l2 : List β) (i : ℕ),
      (l.zip l2)[i]? = (l[i]?).bind (fun a => (l2[i]?).map (fun b => (a, b))) := by
  intro l
  induction l with
  | nil => intro l2 i; simp
  | cons a l ih =>
    intro l2 i
    cases l2 with
    | nil => simp
    | cons b l2 =>
      cases i with
      | zero => simp
      | succ n => simpa using ih l2 n

/-- C8: with `step = floor(n * pctEmbargo)`, the embargo map is the
identity on dates when `step = 0`; otherwise it has one entry per index
position, sending the i-th date to the (i+step)-th date while i+step is
in range and each of the trailing dates to the last date; and every
iteration of the walk-forward loop recomputes it from the full index. -/
theorem embargo_map_spec :
    (∀ (times : List ℤ) (pct : ℚ), 0 ≤ pct →
      (embargoStep times pct : ℤ) = ⌊(times.length : ℚ) * pct⌋) ∧
    (∀ (times : List ℤ) (pct : ℚ), embargoStep times pct = 0 →
      getEmbargoTimes times pct = times.map (fun t => (t, t))) ∧
    (∀ (times : List ℤ) (pct : ℚ), 0 < embargoStep times pct →
      (getEmbargoTimes times pct).length = times.length ∧
      (∀ i : ℕ, i < times.length - embargoStep times pct →
        (getEmbargoTimes times pct)[i]? =
          (times[i]?).bind (fun a =>
            (times[i + embargoStep times pct]?).map (fun b => (a, b)))) ∧
      (∀ i : ℕ, times.length - embargoStep times pct ≤ i → i < times.length →
        (getEmbargoTimes times pct)[i]? =
          (times[i]?).map (fun a => (a, times.getLastD 0)))) ∧
    (∀ (times : List ℤ) (pct : ℚ) (de : ℤ) (s : WFState),
      ∀ w ∈ wfLoop times pct de s, w.embargo = getEmbargoTimes times pct) := by
  refine ⟨?_, ?_, ?_, ?_⟩
  · intro times pct hp
    rw [embargoStep, pyInt, if_pos (by positivity)]
    rw [Int.toNat_of_nonneg (Int.floor_nonneg.mpr (by positivity))]
  · intro times pct h
    rw [getEmbargoTimes]
    simp [h]
  · intro times pct h
    have hne : ¬ embargoStep times pct = 0 := by omega
    rw [getEmbargoTimes]
    simp only [if_neg hne]
    set st := embargoStep times pct with hst
    set n := times.length with hn
    have hzlen : ((times.take (n - st)).zip (times.drop st)).length = n - st := by
      simp [List.length_zip, ← hn]
    refine ⟨?_, ?_, ?_⟩
    · simp [List.length_zip, ← hn]
    · intro i hi
      rw [List.getElem?_append, if_pos (by omega)]
      rw [getElem?_zipPair]
      rw [List.getElem?_take, if_pos (by omega)]
      rw [List.getElem?_drop]
      rw [Nat.add_comm st i]
    · intro i hi1 hi2
      rw [List.getElem?_append, if_neg (by omega)]
      rw [hzlen, List.getElem?_map, List.getElem?_drop]
      have : n - st + (i - (n - st)) = i := by omega
      rw [this]
  · intro times pct de s w hw
    exact (mem_wfLoop times pct de _ s rfl w hw).2.1

theorem embargo_map_spec_witness :
    ((embargoStep [(0:ℤ), 1, 2, 3] (3/10) : ℤ) = ⌊((4:ℕ) : ℚ) * (3/10)⌋) ∧
    (getEmbargoTimes [(5:ℤ)] 0 = [((5:ℤ), (5:ℤ))]) ∧
    ((getEmbargoTimes [(0:ℤ), 1, 2, 3] (3/10))[1]? =
      (([(0:ℤ), 1, 2, 3][1]?).bind (fun a =>
        ([(0:ℤ), 1, 2, 3][1 + embargoStep [(0:ℤ), 1, 2, 3] (3/10)]?).map
          (fun b => (a, b))))) ∧
    ((getEmbargoTimes [(0:ℤ), 1, 2, 3] (3/10))[3]? =
      (([(0:ℤ), 1, 2, 3][3]?).map (fun a => (a, [(0:ℤ), 1, 2, 3].getLastD 0)))) ∧
    (∀ w ∈ wfLoop [(0:ℤ), 1000] (1/100) 1000 ⟨0, 730, 730, 912⟩,
      w.embargo = getEmbargoTimes [(0:ℤ), 1000] (1/100)) := by
  have hstep : embargoStep [(0:ℤ), 1, 2, 3] (3/10) = 1 := by
    norm_num [embargoStep, pyInt]
  refine ⟨embargo_map_spec.1 [(0:ℤ), 1, 2, 3] (3/10) (by norm_num),
    embargo_map_spec.2.1 [(5:ℤ)] 0 (by norm_num [embargoStep, pyInt]),
    (embargo_map_spec.2.2.1 [(0:ℤ), 1, 2, 3] (3/10) (by omega)).2.1 1 (by rw [hstep]; decide),
    (embargo_map_spec.2.2.1 [(0:ℤ), 1, 2, 3] (3/10) (by omega)).2.2 3 (by rw [hstep]; decide) (by decide),
    fun w hw => embargo_map_spec.2.2.2 [(0:ℤ), 1000] (1/100) 1000 ⟨0, 730, 730, 912⟩ w hw⟩

theorem mem_selectGroup (tdays : ℚ) (rows : List PairRow) (r : PairRow)
    (h : r ∈ selectGroup tdays rows) :
    r ∈ rows ∧ passesSel tdays (groupThr rows) r := by
  rw [selectGroup] at h
  rw [List.mem_filter] at h
  exact ⟨h.1, of_decide_eq_true h.2⟩

theorem mem_selectByKey {κ : Type} [DecidableEq κ] (tdays : ℚ)
    (key : PairRow → Option κ) (cats : List κ) (rows : List PairRow) (r : PairRow)
    (h : r ∈ selectByKey tdays key cats rows) :
    ∃ c, c ∈ cats ∧ r ∈ rows ∧ key r = some c ∧
      passesSel tdays
        (groupThr (rows.filter (fun x => decide (key x = some c)))) r := by
  rw [selectByKey] at h
  rw [List.mem_flatMap] at h
  obtain ⟨c, hc, hr⟩ := h
  obtain ⟨hmem, hpass⟩ := mem_selectGroup _ _ _ hr
  rw [List.mem_filter] at hmem
  exact ⟨c, hc, hmem.1, of_decide_eq_true hmem.2, hpass⟩

theorem passes_nonnan (tdays : ℚ) (thr : Option ℝ) (r : PairRow)
    (h : passesSel tdays thr r) :
    r.correlation.isSome ∧ r.cointPValue.isSome ∧ r.halfLife.isSome ∧
    r.spreadStd.isSome ∧ thr.isSome ∧ r.avgHurst ≠ .nan := by
  obtain ⟨h1, h2, h3, h4, h5, h6⟩ := h
  refine ⟨?_, ?_, ?_, ?_, ?_, ?_⟩
  · cases hc : r.toPairStats.correlation with
    | none => rw [hc] at h1; simp [optGeQ] at h1
    | some v => rfl
  · cases hc : r.toPairStats.cointPValue with
    | none => rw [hc] at h2; simp [optLeQ] at h2
    | some v => rfl
  · cases hc : r.toPairStats.halfLife with
    | none => rw [hc] at h5; simp [optGeR] at h5
    | some v => rfl
  · cases hc : r.toPairStats.spreadStd with
    | none => rw [hc] at h3; simp [optLeOptR] at h3
    | some v => rfl
  · cases hc : thr with
    | none => rw [hc] at h3; cases hs : r.toPairStats.spreadStd <;>
        rw [hs] at h3 <;> simp [optLeOptR] at h3
    | some v => rfl
  · intro hn
    rw [hn] at h4
    simp [npLtR] at h4

/-- C1: every record emitted by any of the three strategies satisfies,
on its stored statistics, Correlation >= 0.8, Cointegration p-value
<= 0.05, Average Hurst < 0.5, Half-Life in [5, trading-period days] and
Spread STD <= the median Spread STD of the record's own group (the whole
window for the unrestricted strategy, the record's segment or cluster
for the other two), and none of the compared fields is NaN. -/
theorem selected_records_pass_filters :
    (∀ (o : StatOracles) (panel : Panel) (tdays : ℚ) (out : List PairRow)
        (r : PairRow),
      select_pairs_no_clustering o panel tdays = .ok out → r ∈ out →
      ∃ rows, noClusterResults o panel = .ok rows ∧
        passesSel tdays (groupThr rows) r ∧
        r.correlation.isSome ∧ r.cointPValue.isSome ∧ r.halfLife.isSome ∧
        r.spreadStd.isSome ∧ (groupThr rows).isSome ∧ r.avgHurst ≠ .nan) ∧
    (∀ (o : StatOracles) (etfInfo : List (String × String)) (panel : Panel)
        (tdays : ℚ) (out : List PairRow) (r : PairRow),
      select_pairs_theme_clustering o etfInfo panel tdays = .ok out → r ∈ out →
      ∃ rows, themeResults o etfInfo panel = .ok rows ∧
        passesSel tdays
          (groupThr (rows.filter (fun x => decide (x.segment = r.segment)))) r ∧
        r.correlation.isSome ∧ r.cointPValue.isSome ∧ r.halfLife.isSome ∧
        r.spreadStd.isSome ∧
        (groupThr (rows.filter (fun x => decide (x.segment = r.segment)))).isSome ∧
        r.avgHurst ≠ .nan) ∧
    (∀ (o : StatOracles) (labels : List ℤ) (panel : Panel) (tdays : ℚ)
        (out : List PairRow) (r : PairRow),
      select_pairs_optics_clustering o (some labels) panel tdays = .ok out →
      r ∈ out →
      ∃ rows, opticsResults o labels panel = .ok rows ∧
        passesSel tdays
          (groupThr (rows.filter (fun x => decide (x.cluster = r.cluster)))) r ∧
        r.correlation.isSome ∧ r.cointPValue.isSome ∧ r.halfLife.isSome ∧
        r.spreadStd.isSome ∧
        (groupThr (rows.filter (fun x => decide (x.cluster = r.cluster)))).isSome ∧
        r.avgHurst ≠ .nan) := by
  refine ⟨?_, ?_, ?_⟩
  · intro o panel tdays out r hout hr
    cases hres : noClusterResults o panel with
    | error e =>
      rw [select_pairs_no_clustering, hres] at hout
      simp [Bind.bind, Except.bind] at hout
    | ok rows =>
      rw [select_pairs_no_clustering, hres] at hout
      simp only [Bind.bind, Except.bind] at hout
      injection hout with hout
      subst hout
      obtain ⟨_, hpass⟩ := mem_selectGroup tdays rows r hr
      have hn := passes_nonnan _ _ _ hpass
      exact ⟨rows, rfl, hpass, hn.1, hn.2.1, hn.2.2.1, hn.2.2.2.1,
        hn.2.2.2.2.1, hn.2.2.2.2.2⟩
  · intro o etfInfo panel tdays out r hout hr
    cases hres : themeResults o etfInfo panel with
    | error e =>
      rw [select_pairs_theme_clustering, hres] at hout
      simp [Bind.bind, Except.bind] at hout
    | ok rows =>
      rw [select_pairs_theme_clustering, hres] at hout
      simp only [Bind.bind, Except.bind] at hout
      injection hout with hout
      subst hout
      obtain ⟨c, _, _, hkey, hpass⟩ :=
        mem_selectByKey tdays (fun x => x.segment) (themeCategories etfInfo) rows r hr
      rw [← hkey] at hpass
      have hn := passes_nonnan _ _ _ hpass
      exact ⟨rows, rfl, hpass, hn.1, hn.2.1, hn.2.2.1, hn.2.2.2.1,
        hn.2.2.2.2.1, hn.2.2.2.2.2⟩
  · intro o labels panel tdays out r hout hr
    rw [select_pairs_optics_clustering] at hout
    by_cases hcl : (opticsClusters labels).isEmpty
    · rw [if_pos hcl] at hout
      injection hout with hout
      subst hout
      exact absurd hr (List.not_mem_nil r)
    · rw [if_neg hcl] at hout
      cases hres : opticsResults o labels panel with
      | error e =>
        rw [hres] at hout
        simp [Bind.bind, Except.bind] at hout
      | ok rows =>
        rw [hres] at hout
        simp only [Bind.bind, Except.bind] at hout
        injection hout with hout
        subst hout
        obtain ⟨c, _, _, hkey, hpass⟩ :=
          mem_selectByKey tdays (fun x => x.cluster) (opticsClusters labels) rows r hr
        rw [← hkey] at hpass
        have hn := passes_nonnan _ _ _ hpass
        exact ⟨rows, rfl, hpass, hn.1, hn.2.1, hn.2.2.1, hn.2.2.2.1,
          hn.2.2.2.2.1, hn.2.2.2.2.2⟩

/-- Concrete witness oracles: every external routine succeeds with a
fixed benign value. -/
def oW : StatOracles :=
  ⟨fun _ => some 1, fun _ _ => some (-5, 1/100), fun _ => 9/10,
   fun _ _ => some (9/10)⟩

/-- 21 daily closes of instrument A (dates 0..20, price = date + 1). -/
def seriesA : Series := [(0, 1), (1, 2), (2, 3), (3, 4), (4, 5), (5, 6), (6, 7), (7, 8), (8, 9), (9, 10), (10, 11), (11, 12), (12, 13), (13, 14), (14, 15), (15, 16), (16, 17), (17, 18), (18, 19), (19, 20), (20, 21)]

/-- 21 daily closes of instrument B (price = date + 2). -/
def seriesB : Series := [(0, 2), (1, 3), (2, 4), (3, 5), (4, 6), (5, 7), (6, 8), (7, 9), (8, 10), (9, 11), (10, 12), (11, 13), (12, 14), (13, 15), (14, 16), (15, 17), (16, 18), (17, 19), (18, 20), (19, 21), (20, 22)]

/-- The two-instrument witness formation panel. -/
def panelW : Panel := [("A", seriesA), ("B", seriesB)]

/-- The constant witness spread. -/
def spreadW : List ℚ := [-1, -1, -1, -1, -1, -1, -1, -1, -1, -1, -1, -1, -1, -1, -1, -1, -1, -1, -1, -1, -1]

theorem alignW : alignPair seriesA seriesB = [(0, 1, 2), (1, 2, 3), (2, 3, 4), (3, 4, 5), (4, 5, 6), (5, 6, 7), (6, 7, 8), (7, 8, 9), (8, 9, 10), (9, 10, 11), (10, 11, 12), (11, 12, 13), (12, 13, 14), (13, 14, 15), (14, 15, 16), (15, 16, 17), (16, 17, 18), (17, 18, 19), (18, 19, 20), (19, 20, 21), (20, 21, 22)] := by decide

theorem alignedFstW : alignedFst seriesA seriesB = [1, 2, 3, 4, 5, 6, 7, 8, 9, 10, 11, 12, 13, 14, 15, 16, 17, 18, 19, 20, 21] := by
  rw [alignedFst, alignW]; rfl

theorem alignedSndW : alignedSnd seriesA seriesB = [2, 3, 4, 5, 6, 7, 8, 9, 10, 11, 12, 13, 14, 15, 16, 17, 18, 19, 20, 21, 22] := by
  rw [alignedSnd, alignW]; rfl

theorem alignedSpreadW : alignedSpread seriesA seriesB = spreadW := by
  rw [alignedSpread, alignedFstW, alignedSndW, spreadW]
  norm_num

theorem subSeriesW : subSeries seriesA seriesB = spreadW := by
  rw [subSeries, seriesA, seriesB, spreadW]
  norm_num

theorem pctChangeDropna_length :
    ∀ (l : List ℚ), (∀ x ∈ l, x ≠ 0) → (pctChangeDropna l).length = l.length - 1 := by
  intro l
  induction l with
  | nil => intro _; rfl
  | cons a l ih =>
    intro h
    cases l with
    | nil => rfl
    | cons b l2 =>
      have ha : a ≠ 0 := h a (List.mem_cons_self _ _)
      have hrest := ih (fun x hx => h x (List.mem_cons_of_mem _ hx))
      have hnn : (!(npDivQ (b - a) a).isNanB) = true := by
        rw [npDivQ, if_neg ha]; rfl
      simp only [pctChangeDropna, pctChange] at hrest ⊢
      rw [List.filter_cons, if_pos hnn]
      simp only [List.length_cons, hrest]
      simp

theorem nsW (l : List ℚ) (h : ¬ nuniq l ≤ 1) :
    is_not_stationary oW.adf (1/20) l = true := by
  rw [is_not_stationary, if_neg h]
  show decide ((1:ℚ)/20 < 1) = true
  rw [decide_eq_true_eq]
  norm_num

theorem egW : egle_granger_test_bidirectional oW.coint (alignedFst seriesA seriesB)
    (alignedSnd seriesA seriesB) = (some (-5), some (1/100)) := by
  rw [egle_granger_test_bidirectional,
    if_neg (by rw [alignedFstW, alignedSndW]; decide)]
  show (if ((-5:ℚ), (1/100:ℚ)).1 < ((-5:ℚ), (1/100:ℚ)).1 then _ else _) = _
  rw [if_neg (lt_irrefl _)]

theorem hurstValW : hurstValue spreadW 20 = .ninf := by
  have hld : lagDiffs spreadW 20 = [0] := by
    rw [spreadW, lagDiffs]; norm_num
  have hpv : popVar [(0:ℚ)] = 0 := by norm_num [popVar, qmean, qsum]
  have h20 : (0:ℝ) ≤ Real.log 20 / Real.log 10 := by
    apply div_nonneg
    · apply Real.log_nonneg; norm_num
    · apply Real.log_nonneg; norm_num
  rw [hurstValue, hld, hpv]
  rw [npLog10Q, if_neg (by norm_num), if_pos rfl]
  rw [npLog10Q, if_neg (by push_cast; norm_num), if_neg (by push_cast; norm_num)]
  rw [show npDiv NpVal.ninf (NpVal.fin (Real.log ((((20:ℕ):ℚ)):ℝ) / Real.log 10)) =
      NpVal.ninf by simp [npDiv, h20]]
  rfl

theorem hurstMapW : calculate_hurst_exponent spreadW strategy_lags =
    .ok [(20, NpVal.ninf)] := by
  rw [hurst_ok_of_pos spreadW strategy_lags (by decide)]
  rw [show strategy_lags.filter (fun L => decide (L < spreadW.length)) = [20] by decide]
  simp [hurstValW]

theorem hurstMapW0 : calculate_hurst_exponent spreadW discrete_lags =
    .ok [(20, NpVal.ninf)] := by
  rw [hurst_ok_of_pos spreadW discrete_lags (by decide)]
  rw [show discrete_lags.filter (fun L => decide (L < spreadW.length)) = [20] by decide]
  simp [hurstValW]

theorem npMeanW : npMean [NpVal.ninf] = NpVal.ninf := by
  rw [npMean]
  show npDiv (npAdd NpVal.ninf (NpVal.fin 0)) (NpVal.fin ((1:ℕ):ℝ)) = NpVal.ninf
  rw [show npAdd NpVal.ninf (NpVal.fin 0) = NpVal.ninf from rfl]
  simp [npDiv]

theorem halfLifeW : calculate_half_life oW.arPhi (spreadW.map some) =
    some (Real.log 2 / -Real.log (((9:ℚ)/10 : ℚ) : ℝ)) := by
  have hfm : (spreadW.map some).filterMap id = spreadW := by decide
  have hcast0 : (0:ℝ) < (((9:ℚ)/10 : ℚ) : ℝ) := by push_cast; norm_num
  have hcast1 : (((9:ℚ)/10 : ℚ) : ℝ) < 1 := by push_cast; norm_num
  have hlog : Real.log (((9:ℚ)/10 : ℚ) : ℝ) < 0 := Real.log_neg hcast0 hcast1
  have e1 : npLogQ ((9:ℚ)/10) = .fin (Real.log (((9:ℚ)/10 : ℚ) : ℝ)) := by
    rw [npLogQ, if_neg (by norm_num), if_neg (by norm_num)]
  have e2 : npNeg (npLogQ ((9:ℚ)/10)) = .fin (-Real.log (((9:ℚ)/10 : ℚ) : ℝ)) := by
    rw [e1]; rfl
  have e3 : ¬ npLeZero (npNeg (npLogQ ((9:ℚ)/10))) := by
    rw [e2]
    simp only [npLeZero, not_le]
    linarith
  have hb : -Real.log (((9:ℚ)/10 : ℚ) : ℝ) ≠ 0 := by
    apply ne_of_gt; linarith
  simp only [calculate_half_life, hfm]
  rw [if_neg (by decide : ¬ spreadW.length < 2)]
  show (if (1:ℚ) ≤ (9:ℚ)/10 ∨ ((9:ℚ)/10 : ℚ) ≤ -1 then none
    else if npLeZero (npNeg (npLogQ ((9:ℚ)/10))) then none
    else npToOpt (npDiv (.fin (Real.log 2)) (npNeg (npLogQ ((9:ℚ)/10))))) =
    some (Real.log 2 / -Real.log (((9:ℚ)/10 : ℚ) : ℝ))
  have e4 : npDiv (NpVal.fin (Real.log 2))
      (NpVal.fin (-Real.log (((9:ℚ)/10 : ℚ) : ℝ))) =
      NpVal.fin (Real.log 2 / -Real.log (((9:ℚ)/10 : ℚ) : ℝ)) := by
    simp only [npDiv]
    rw [if_neg hb]
  rw [if_neg (by push_neg; constructor <;> norm_num), if_neg e3, e2, e4]
  rfl

/-- The single pair record the witness run emits. -/
noncomputable def rW : PairRow :=
  { pair := ("A", "B"), correlation := some (9/10), cointTStat := some (-5),
    cointPValue := some (1/100),
    hurstMap := [(20, NpVal.ninf)],
    halfLife := some (Real.log 2 / -Real.log (((9:ℚ)/10 : ℚ) : ℝ)),
    spreadStd := some (Real.sqrt (sampleVar spreadW)),
    avgHurst := NpVal.ninf, segment := none, cluster := none }

theorem pairStatsW : calculate_pair_statistics oW (1/20) "A" "B" seriesA seriesB =
    .ok (some rW.toPairStats) := by
  have hr1 : (pctChangeDropna (alignedFst seriesA seriesB)).length = 20 := by
    rw [alignedFstW]
    rw [pctChangeDropna_length _ (by decide)]
    rfl
  have hr2 : (pctChangeDropna (alignedSnd seriesA seriesB)).length = 20 := by
    rw [alignedSndW]
    rw [pctChangeDropna_length _ (by decide)]
    rfl
  simp only [calculate_pair_statistics]
  rw [if_neg (by rw [alignW]; decide : ¬ alignPair seriesA seriesB = [])]
  rw [nsW _ (by rw [alignedFstW]; decide), nsW _ (by rw [alignedSndW]; decide)]
  rw [if_pos (by decide : ((true && true) = true))]
  rw [alignedSpreadW, hurstMapW0]
  simp only [Bind.bind, Except.bind]
  rw [if_neg (by rw [hr1, hr2]; norm_num)]
  rw [egW, halfLifeW]
  rw [pdStd, if_neg (by decide : ¬ spreadW.length < 2)]
  rfl

theorem mkRecordW : mkRecord oW (1/20) "A" "B" seriesA seriesB none none =
    .ok (some rW) := by
  rw [mkRecord]
  rw [pairStatsW]
  simp only [Bind.bind, Except.bind]
  rw [subSeriesW, hurstMapW]
  simp only [Bind.bind, Except.bind]
  rw [show ([(20, NpVal.ninf)].map (fun e => e.2)) = [NpVal.ninf] from rfl, npMeanW]
  rfl

theorem noClusterResultsW : noClusterResults oW panelW = .ok [rW] := by
  rw [noClusterResults]
  have hs : sortedCols panelW = panelW := by
    simp [sortedCols, panelW, insertionSortBy, insertLe]
    decide
  have hp : pairsOf (sortedCols panelW) = [(("A", seriesA), ("B", seriesB))] := by
    rw [hs]; rfl
  rw [hp]
  rw [buildRecords]
  rw [mkRecordW]
  simp only [Bind.bind, Except.bind, buildRecords]
  rw [show ([rW].filter (fun r => r.correlation.isSome)) = [rW] by
    rw [List.filter_cons, if_pos (by rfl)]; rfl]

theorem log109_pos : (0:ℝ) < Real.log (10/9) := Real.log_pos (by norm_num)

theorem negLogW : -Real.log (((9:ℚ)/10 : ℚ) : ℝ) = Real.log (10/9 : ℝ) := by
  have hcast : (((9:ℚ)/10 : ℚ) : ℝ) = 9/10 := by push_cast; norm_num
  rw [hcast, ← Real.log_inv]
  norm_num

theorem passesW : passesSel 182 (groupThr [rW]) rW := by
  have hthr : groupThr [rW] = some (Real.sqrt (sampleVar spreadW)) := rfl
  have h5 : 5 * Real.log (10/9 : ℝ) ≤ Real.log 2 := by
    have h1 : Real.log ((10/9 : ℝ) ^ (5:ℕ)) ≤ Real.log 2 := by
      apply Real.log_le_log (by positivity)
      norm_num
    rw [Real.log_pow] at h1
    push_cast at h1
    linarith
  have h182 : Real.log 2 ≤ 182 * Real.log (10/9 : ℝ) := by
    have h1 : Real.log 2 ≤ Real.log ((10/9 : ℝ) ^ (7:ℕ)) := by
      apply Real.log_le_log (by norm_num)
      norm_num
    rw [Real.log_pow] at h1
    push_cast at h1
    nlinarith [log109_pos]
  refine ⟨?_, ?_, ?_, ?_, ?_, ?_⟩
  · show (8/10 : ℚ) ≤ 9/10
    norm_num
  · show (1/100 : ℚ) ≤ 1/20
    norm_num
  · rw [hthr]
    show Real.sqrt (sampleVar spreadW) ≤ Real.sqrt (sampleVar spreadW)
    exact le_refl _
  · show True
    trivial
  · show (5:ℝ) ≤ Real.log 2 / -Real.log (((9:ℚ)/10 : ℚ) : ℝ)
    rw [negLogW]
    rw [le_div_iff₀ log109_pos]
    linarith
  · show Real.log 2 / -Real.log (((9:ℚ)/10 : ℚ) : ℝ) ≤ ((182:ℚ) : ℝ)
    rw [negLogW]
    rw [div_le_iff₀ log109_pos]
    push_cast
    linarith

theorem selectW : select_pairs_no_clustering oW panelW 182 = .ok (selectGroup 182 [rW]) := by
  rw [select_pairs_no_clustering, noClusterResultsW]
  rfl

theorem memSelectW : rW ∈ selectGroup 182 [rW] := by
  rw [selectGroup]
  exact List.mem_filter.mpr ⟨List.mem_cons_self _ _, decide_eq_true passesW⟩

theorem selected_records_pass_filters_witness :
    ∃ rows, noClusterResults oW panelW = .ok rows ∧
      passesSel 182 (groupThr rows) rW ∧
      rW.correlation.isSome ∧ rW.cointPValue.isSome ∧ rW.halfLife.isSome ∧
      rW.spreadStd.isSome ∧ (groupThr rows).isSome ∧ rW.avgHurst ≠ .nan :=
  selected_records_pass_filters.1 oW panelW 182 (selectGroup 182 [rW]) rW
    selectW memSelectW

theorem mem_insertLe {α : Type} (le : α → α → Bool) (a : α) :
    ∀ (l : List α) (x : α), x ∈ insertLe le a l → x = a ∨ x ∈ l := by
  intro l
  induction l with
  | nil =>
    intro x hx
    rw [insertLe] at hx
    rcases List.mem_cons.mp hx with rfl | hx'
    · exact Or.inl rfl
    · exact absurd hx' (List.not_mem_nil x)
  | cons b bs ih =>
    intro x hx
    rw [insertLe] at hx
    by_cases h : le a b
    · rw [if_pos h] at hx
      exact List.mem_cons.mp hx
    · rw [if_neg h] at hx
      rcases List.mem_cons.mp hx with rfl | hx'
      · exact Or.inr (List.mem_cons_self _ _)
      · rcases ih x hx' with h1 | h2
        · exact Or.inl h1
        · exact Or.inr (List.mem_cons_of_mem _ h2)

theorem mem_insertionSortBy {α : Type} (le : α → α → Bool) :
    ∀ (l : List α) (x : α), x ∈ insertionSortBy le l → x ∈ l := by
  intro l
  induction l with
  | nil => intro x hx; exact absurd hx (List.not_mem_nil x)
  | cons a as ih =>
    intro x hx
    rw [insertionSortBy] at hx
    rcases mem_insertLe le a _ x hx with rfl | hx'
    · exact List.mem_cons_self _ _
    · exact List.mem_cons_of_mem _ (ih x hx')

theorem pairsOf_mem {α : Type} :
    ∀ (l : List α) (p : α × α), p ∈ pairsOf l → p.1 ∈ l ∧ p.2 ∈ l := by
  intro l
  induction l with
  | nil => intro p hp; exact absurd hp (List.not_mem_nil p)
  | cons a as ih =>
    intro p hp
    rw [pairsOf] at hp
    rcases List.mem_append.mp hp with h1 | h2
    · obtain ⟨b, hb, hpb⟩ := List.mem_map.mp h1
      rw [← hpb]
      exact ⟨List.mem_cons_self _ _, List.mem_cons_of_mem _ hb⟩
    · have := ih p h2
      exact ⟨List.mem_cons_of_mem _ this.1, List.mem_cons_of_mem _ this.2⟩

theorem lookup_mem {α β : Type} [BEq α] [LawfulBEq α] :
    ∀ (l : List (α × β)) (a : α) (b : β), l.lookup a = some b → (a, b) ∈ l := by
  intro l
  induction l with
  | nil => intro a b h; simp [List.lookup] at h
  | cons kv rest ih =>
    intro a b h
    obtain ⟨k, v⟩ := kv
    rw [List.lookup] at h
    by_cases hk : a == k
    · rw [hk] at h
      injection h with h
      have : a = k := eq_of_beq hk
      rw [this, h]
      exact List.mem_cons_self _ _
    · rw [Bool.not_eq_true] at hk
      rw [hk] at h
      exact List.mem_cons_of_mem _ (ih a b h)

theorem buildRecords_mem (o : StatOracles) (sig : ℚ) (seg : Option String)
    (clu : Option ℤ) :
    ∀ (prs : List ((String × Series) × (String × Series))) (rs : List PairRow),
      buildRecords o sig seg clu prs = .ok rs → ∀ r ∈ rs,
      ∃ ab, ab ∈ prs ∧
        mkRecord o sig ab.1.1 ab.2.1 ab.1.2 ab.2.2 seg clu = .ok (some r) := by
  intro prs
  induction prs with
  | nil =>
    intro rs h r hr
    rw [buildRecords] at h
    injection h with h
    rw [← h] at hr
    exact absurd hr (List.not_mem_nil r)
  | cons ab rest ih =>
    obtain ⟨a, b⟩ := ab
    intro rs h r hr
    rw [buildRecords] at h
    cases hmk : mkRecord o sig a.1 b.1 a.2 b.2 seg clu with
    | error e => rw [hmk] at h; simp [Bind.bind, Except.bind] at h
    | ok r? =>
      rw [hmk] at h
      simp only [Bind.bind, Except.bind] at h
      cases hbr : buildRecords o sig seg clu rest with
      | error e => rw [hbr] at h; simp at h
      | ok rs' =>
        rw [hbr] at h
        injection h with h
        rw [← h] at hr
        cases r? with
        | none =>
          obtain ⟨ab', hab', hmk'⟩ := ih rs' hbr r hr
          exact ⟨ab', List.mem_cons_of_mem _ hab', hmk'⟩
        | some r0 =>
          rcases List.mem_cons.mp hr with rfl | hr'
          · exact ⟨(a, b), List.mem_cons_self _ _, hmk⟩
          · obtain ⟨ab', hab', hmk'⟩ := ih rs' hbr r hr'
            exact ⟨ab', List.mem_cons_of_mem _ hab', hmk'⟩

theorem themeResultsCats_mem (o : StatOracles) (etfInfo : List (String × String))
    (panel : Panel) :
    ∀ (cats : List String) (rows : List PairRow),
      themeResultsCats o etfInfo panel cats = .ok rows → ∀ r ∈ rows,
      ∃ c ab, c ∈ cats ∧ ab ∈ themePairsIn etfInfo panel c ∧
        mkRecord o (1/20) ab.1.1 ab.2.1 ab.1.2 ab.2.2 (some c) none =
          .ok (some r) := by
  intro cats
  induction cats with
  | nil =>
    intro rows h r hr
    rw [themeResultsCats] at h
    injection h with h
    rw [← h] at hr
    exact absurd hr (List.not_mem_nil r)
  | cons c cs ih =>
    intro rows h r hr
    rw [themeResultsCats] at h
    cases hbr : buildRecords o (1/20) (some c) none (themePairsIn etfInfo panel c) with
    | error e => rw [hbr] at h; simp [Bind.bind, Except.bind] at h
    | ok rs =>
      rw [hbr] at h
      simp only [Bind.bind, Except.bind] at h
      cases hrest : themeResultsCats o etfInfo panel cs with
      | error e => rw [hrest] at h; simp at h
      | ok rest =>
        rw [hrest] at h
        injection h with h
        rw [← h] at hr
        rcases List.mem_append.mp hr with h1 | h2
        · obtain ⟨ab, hab, hmk⟩ := buildRecords_mem o (1/20) (some c) none _ rs hbr r h1
          exact ⟨c, ab, List.mem_cons_self _ _, hab, hmk⟩
        · obtain ⟨c', ab, hc', hab, hmk⟩ := ih rest hrest r h2
          exact ⟨c', ab, List.mem_cons_of_mem _ hc', hab, hmk⟩

theorem opticsResultsClusters_mem (o : StatOracles)
    (labeled : List ((String × Series) × ℤ)) :
    ∀ (cls : List ℤ) (rows : List PairRow),
      opticsResultsClusters o labeled cls = .ok rows → ∀ r ∈ rows,
      ∃ c ab, c ∈ cls ∧
        ab ∈ pairsOf ((labeled.filter (fun e => decide (e.2 = c))).map (fun e => e.1)) ∧
        mkRecord o (1/20) ab.1.1 ab.2.1 ab.1.2 ab.2.2 none (some c) =
          .ok (some r) := by
  intro cls
  induction cls with
  | nil =>
    intro rows h r hr
    rw [opticsResultsClusters] at h
    injection h with h
    rw [← h] at hr
    exact absurd hr (List.not_mem_nil r)
  | cons c cs ih =>
    intro rows h r hr
    rw [opticsResultsClusters] at h
    by_cases hm : ((labeled.filter (fun e => decide (e.2 = c))).map (fun e => e.1)).length < 2
    · rw [if_pos hm] at h
      simp only [Bind.bind, Except.bind, pure, Except.pure] at h
      cases hrest : opticsResultsClusters o labeled cs with
      | error e => rw [hrest] at h; simp at h
      | ok rest =>
        rw [hrest] at h
        injection h with h
        rw [← h] at hr
        simp only [List.nil_append] at hr
        obtain ⟨c', ab, hc', hab, hmk⟩ := ih rest hrest r hr
        exact ⟨c', ab, List.mem_cons_of_mem _ hc', hab, hmk⟩
    · rw [if_neg hm] at h
      cases hbr : buildRecords o (1/20) none (some c)
          (pairsOf ((labeled.filter (fun e => decide (e.2 = c))).map (fun e => e.1))) with
      | error e => rw [hbr] at h; simp [Bind.bind, Except.bind] at h
      | ok rs =>
        rw [hbr] at h
        simp only [Bind.bind, Except.bind] at h
        cases hrest : opticsResultsClusters o labeled cs with
        | error e => rw [hrest] at h; simp at h
        | ok rest =>
          rw [hrest] at h
          injection h with h
          rw [← h] at hr
          rcases List.mem_append.mp hr with h1 | h2
          · obtain ⟨ab, hab, hmk⟩ := buildRecords_mem o (1/20) none (some c) _ rs hbr r h1
            exact ⟨c, ab, List.mem_cons_self _ _, hab, hmk⟩
          · obtain ⟨c', ab, hc', hab, hmk⟩ := ih rest hrest r h2
            exact ⟨c', ab, List.mem_cons_of_mem _ hc', hab, hmk⟩

theorem themePairsIn_mem (etfInfo : List (String × String)) (panel : Panel)
    (c : String) (ab : (String × Series) × (String × Series))
    (h : ab ∈ themePairsIn etfInfo panel c) :
    ab.1 ∈ panel ∧ ab.2 ∈ panel := by
  rw [themePairsIn] at h
  obtain ⟨p, _, hp⟩ := List.mem_filterMap.mp h
  cases hl1 : panel.lookup p.1 with
  | none => rw [hl1] at hp; simp at hp
  | some c1 =>
    cases hl2 : panel.lookup p.2 with
    | none => rw [hl1, hl2] at hp; simp at hp
    | some c2 =>
      rw [hl1, hl2] at hp
      injection hp with hp
      rw [← hp]
      exact ⟨lookup_mem panel p.1 c1 hl1, lookup_mem panel p.2 c2 hl2⟩

theorem cps_hurst (o : StatOracles) (sig : ℚ) (n1 n2 : String) (s1 s2 : Series)
    (st : PairStats)
    (h : calculate_pair_statistics o sig n1 n2 s1 s2 = .ok (some st)) :
    calculate_hurst_exponent (alignedSpread s1 s2) discrete_lags =
      .ok st.hurstMap := by
  by_cases ha : alignPair s1 s2 = []
  · rw [calculate_pair_statistics, if_pos ha] at h
    simp at h
  · simp only [calculate_pair_statistics, if_neg ha] at h
    by_cases hb : (is_not_stationary o.adf sig (alignedFst s1 s2) &&
        is_not_stationary o.adf sig (alignedSnd s1 s2)) = true
    · rw [if_pos hb] at h
      cases hh : calculate_hurst_exponent (alignedSpread s1 s2) discrete_lags with
      | error e => rw [hh] at h; simp [Bind.bind, Except.bind] at h
      | ok hm =>
        rw [hh] at h
        simp only [Bind.bind, Except.bind] at h
        by_cases hlen : ((pctChangeDropna (alignedFst s1 s2)).length < 2 ∨
            (pctChangeDropna (alignedFst s1 s2)).length ≠
              (pctChangeDropna (alignedSnd s1 s2)).length)
        · rw [if_pos hlen] at h; simp at h
        · rw [if_neg hlen] at h
          injection h with h
          injection h with h
          rw [← h]
    · rw [if_neg hb] at h
      simp at h

theorem noClusterResults_mem (o : StatOracles) (panel : Panel)
    (rows : List PairRow) (h : noClusterResults o panel = .ok rows)
    (r : PairRow) (hr : r ∈ rows) :
    ∃ ab, ab ∈ pairsOf (sortedCols panel) ∧
      mkRecord o (1/20) ab.1.1 ab.2.1 ab.1.2 ab.2.2 none none = .ok (some r) := by
  rw [noClusterResults] at h
  cases hbr : buildRecords o (1/20) none none (pairsOf (sortedCols panel)) with
  | error e => rw [hbr] at h; simp [Bind.bind, Except.bind] at h
  | ok rs =>
    rw [hbr] at h
    simp only [Bind.bind, Except.bind] at h
    injection h with h
    rw [← h] at hr
    exact buildRecords_mem o (1/20) none none _ rs hbr r (List.mem_filter.mp hr).1

theorem themeResults_mem (o : StatOracles) (etfInfo : List (String × String))
    (panel : Panel) (rows : List PairRow)
    (h : themeResults o etfInfo panel = .ok rows) (r : PairRow) (hr : r ∈ rows) :
    ∃ c ab, ab ∈ themePairsIn etfInfo panel c ∧
      mkRecord o (1/20) ab.1.1 ab.2.1 ab.1.2 ab.2.2 (some c) none =
        .ok (some r) := by
  rw [themeResults] at h
  cases hbr : themeResultsCats o etfInfo panel (themeCategories etfInfo) with
  | error e => rw [hbr] at h; simp [Bind.bind, Except.bind] at h
  | ok rs =>
    rw [hbr] at h
    simp only [Bind.bind, Except.bind] at h
    injection h with h
    rw [← h] at hr
    obtain ⟨c, ab, _, hab, hmk⟩ :=
      themeResultsCats_mem o etfInfo panel _ rs hbr r (List.mem_filter.mp hr).1
    exact ⟨c, ab, hab, hmk⟩

theorem opticsResults_mem (o : StatOracles) (labels : List ℤ) (panel : Panel)
    (rows : List PairRow) (h : opticsResults o labels panel = .ok rows)
    (r : PairRow) (hr : r ∈ rows) :
    ∃ c ab,
      ab ∈ pairsOf (((((sortedCols panel).zip labels)).filter
        (fun e => decide (e.2 = c))).map (fun e => e.1)) ∧
      mkRecord o (1/20) ab.1.1 ab.2.1 ab.1.2 ab.2.2 none (some c) =
        .ok (some r) := by
  rw [opticsResults] at h
  cases hbr : opticsResultsClusters o ((sortedCols panel).zip labels)
      (opticsClusters labels) with
  | error e => rw [hbr] at h; simp [Bind.bind, Except.bind] at h
  | ok rs =>
    rw [hbr] at h
    simp only [Bind.bind, Except.bind] at h
    injection h with h
    rw [← h] at hr
    obtain ⟨c, ab, _, hab, hmk⟩ :=
      opticsResultsClusters_mem o _ _ rs hbr r (List.mem_filter.mp hr).1
    exact ⟨c, ab, hab, hmk⟩

theorem optics_ab_mem (panel : Panel) (labels : List ℤ) (c : ℤ)
    (ab : (String × Series) × (String × Series))
    (h : ab ∈ pairsOf ((((sortedCols panel).zip labels).filter
      (fun e => decide (e.2 = c))).map (fun e => e.1))) :
    ab.1 ∈ panel ∧ ab.2 ∈ panel := by
  have h1 := pairsOf_mem _ ab h
  constructor
  · obtain ⟨e, he, hee⟩ := List.mem_map.mp h1.1
    obtain ⟨x, y⟩ := e
    have hz := List.of_mem_zip (List.mem_filter.mp he).1
    rw [← hee]
    exact mem_insertionSortBy _ panel x hz.1
  · obtain ⟨e, he, hee⟩ := List.mem_map.mp h1.2
    obtain ⟨x, y⟩ := e
    have hz := List.of_mem_zip (List.mem_filter.mp he).1
    rw [← hee]
    exact mem_insertionSortBy _ panel x hz.1

/-- C10: in every record emitted by any strategy, the stored Hurst map
is the one recomputed on the pair's strategy-level spread over the lag
set {20, 50, 100, 200} (keys exactly those lags below the spread
length), overwriting the engine's own map computed over the module-level
lags {20, 100, 250, 500, 1000}, and Average_Hurst is the mean of the
recomputed map's values. -/
theorem hurst_recomputed_per_record :
    discrete_lags = [20, 100, 250, 500, 1000] ∧
    strategy_lags = [20, 50, 100, 200] ∧
    (∀ (o : StatOracles) (sig : ℚ) (n1 n2 : String) (c1 c2 : Series)
        (seg : Option String) (clu : Option ℤ) (r : PairRow),
      mkRecord o sig n1 n2 c1 c2 seg clu = .ok (some r) →
      calculate_hurst_exponent (subSeries c1 c2) strategy_lags = .ok r.hurstMap ∧
      (∀ L, (∃ v, (L, v) ∈ r.hurstMap) ↔
        (L ∈ strategy_lags ∧ L < (subSeries c1 c2).length)) ∧
      r.avgHurst = npMean (r.hurstMap.map (fun e => e.2)) ∧
      (∀ st, calculate_pair_statistics o sig n1 n2 c1 c2 = .ok (some st) →
        calculate_hurst_exponent (alignedSpread c1 c2) discrete_lags =
          .ok st.hurstMap)) ∧
    (∀ (o : StatOracles) (panel : Panel) (tdays : ℚ) (out : List PairRow)
        (r : PairRow),
      select_pairs_no_clustering o panel tdays = .ok out → r ∈ out →
      ∃ n1 n2 c1 c2, (n1, c1) ∈ panel ∧ (n2, c2) ∈ panel ∧
        mkRecord o (1/20) n1 n2 c1 c2 none none = .ok (some r)) ∧
    (∀ (o : StatOracles) (etfInfo : List (String × String)) (panel : Panel)
        (tdays : ℚ) (out : List PairRow) (r : PairRow),
      select_pairs_theme_clustering o etfInfo panel tdays = .ok out → r ∈ out →
      ∃ n1 n2 c1 c2 c, (n1, c1) ∈ panel ∧ (n2, c2) ∈ panel ∧
        mkRecord o (1/20) n1 n2 c1 c2 (some c) none = .ok (some r)) ∧
    (∀ (o : StatOracles) (labels : List ℤ) (panel : Panel) (tdays : ℚ)
        (out : List PairRow) (r : PairRow),
      select_pairs_optics_clustering o (some labels) panel tdays = .ok out →
      r ∈ out →
      ∃ n1 n2 c1 c2 c, (n1, c1) ∈ panel ∧ (n2, c2) ∈ panel ∧
        mkRecord o (1/20) n1 n2 c1 c2 none (some c) = .ok (some r)) := by
  refine ⟨rfl, rfl, ?_, ?_, ?_, ?_⟩
  · intro o sig n1 n2 c1 c2 seg clu r hmk
    rw [mkRecord] at hmk
    cases hcps : calculate_pair_statistics o sig n1 n2 c1 c2 with
    | error e => rw [hcps] at hmk; simp [Bind.bind, Except.bind] at hmk
    | ok st? =>
      rw [hcps] at hmk
      simp only [Bind.bind, Except.bind] at hmk
      cases st? with
      | none => simp at hmk
      | some st =>
        cases hh : calculate_hurst_exponent (subSeries c1 c2) strategy_lags with
        | error e => rw [hh] at hmk; simp [Bind.bind, Except.bind] at hmk
        | ok hm =>
          rw [hh] at hmk
          simp only [Bind.bind, Except.bind] at hmk
          injection hmk with hmk
          injection hmk with hmk
          subst hmk
          refine ⟨rfl, ?_, rfl, ?_⟩
          · intro L
            exact hurst_keys (subSeries c1 c2) strategy_lags (by decide) hm hh L
          · intro st' hst'
            injection hst' with hst'
            injection hst' with hst'
            rw [← hst']
            exact cps_hurst o sig n1 n2 c1 c2 st hcps
  · intro o panel tdays out r hout hr
    cases hres : noClusterResults o panel with
    | error e =>
      rw [select_pairs_no_clustering, hres] at hout
      simp [Bind.bind, Except.bind] at hout
    | ok rows =>
      rw [select_pairs_no_clustering, hres] at hout
      simp only [Bind.bind, Except.bind] at hout
      injection hout with hout
      subst hout
      obtain ⟨ab, hab, hmk⟩ := noClusterResults_mem o panel rows hres r
        (mem_selectGroup tdays rows r hr).1
      have hmem := pairsOf_mem _ ab hab
      exact ⟨ab.1.1, ab.2.1, ab.1.2, ab.2.2,
        mem_insertionSortBy _ panel ab.1 hmem.1,
        mem_insertionSortBy _ panel ab.2 hmem.2, hmk⟩
  · intro o etfInfo panel tdays out r hout hr
    cases hres : themeResults o etfInfo panel with
    | error e =>
      rw [select_pairs_theme_clustering, hres] at hout
      simp [Bind.bind, Except.bind] at hout
    | ok rows =>
      rw [select_pairs_theme_clustering, hres] at hout
      simp only [Bind.bind, Except.bind] at hout
      injection hout with hout
      subst hout
      obtain ⟨c, hc, hrrows, hkey, hpass⟩ :=
        mem_selectByKey tdays (fun x => x.segment) (themeCategories etfInfo) rows r hr
      obtain ⟨c', ab, hab, hmk⟩ :=
        themeResults_mem o etfInfo panel rows hres r hrrows
      have hmem := themePairsIn_mem etfInfo panel c' ab hab
      exact ⟨ab.1.1, ab.2.1, ab.1.2, ab.2.2, c', hmem.1, hmem.2, hmk⟩
  · intro o labels panel tdays out r hout hr
    rw [select_pairs_optics_clustering] at hout
    by_cases hcl : (opticsClusters labels).isEmpty
    · rw [if_pos hcl] at hout
      injection hout with hout
      subst hout
      exact absurd hr (List.not_mem_nil r)
    · rw [if_neg hcl] at hout
      cases hres : opticsResults o labels panel with
      | error e => rw [hres] at hout; simp [Bind.bind, Except.bind] at hout
      | ok rows =>
        rw [hres] at hout
        simp only [Bind.bind, Except.bind] at hout
        injection hout with hout
        subst hout
        obtain ⟨c0, hc0, hrrows, hkey, hpass⟩ :=
          mem_selectByKey tdays (fun x => x.cluster) (opticsClusters labels) rows r hr
        obtain ⟨c, ab, hab, hmk⟩ :=
          opticsResults_mem o labels panel rows hres r hrrows
        have hmem := optics_ab_mem panel labels c ab hab
        exact ⟨ab.1.1, ab.2.1, ab.1.2, ab.2.2, c, hmem.1, hmem.2, hmk⟩

theorem hurst_recomputed_per_record_witness :
    (calculate_hurst_exponent (subSeries seriesA seriesB) strategy_lags =
        .ok rW.hurstMap ∧
      (∀ L, (∃ v, (L, v) ∈ rW.hurstMap) ↔
        (L ∈ strategy_lags ∧ L < (subSeries seriesA seriesB).length)) ∧
      rW.avgHurst = npMean (rW.hurstMap.map (fun e => e.2)) ∧
      (∀ st, calculate_pair_statistics oW (1/20) "A" "B" seriesA seriesB =
          .ok (some st) →
        calculate_hurst_exponent (alignedSpread seriesA seriesB) discrete_lags =
          .ok st.hurstMap)) ∧
    (∃ n1 n2 c1 c2, (n1, c1) ∈ panelW ∧ (n2, c2) ∈ panelW ∧
      mkRecord oW (1/20) n1 n2 c1 c2 none none = .ok (some rW)) :=
  ⟨hurst_recomputed_per_record.2.2.1 oW (1/20) "A" "B" seriesA seriesB none none
      rW mkRecordW,
   hurst_recomputed_per_record.2.2.2.1 oW panelW 182 (selectGroup 182 [rW]) rW
      selectW memSelectW⟩
